import Mathlib

/-
Verification development for the docs-crawler repository: a shallow
embedding of its crawl frontier, retry middleware, page extractor,
validation pipeline and data processor, with theorems about the
properties the specification states.

Python strings are modelled as lists of characters (Str).  Python's
str.replace with a one-character pattern and a one-character
replacement is charwise, so the four substitutions of clean_text are
modelled as a single character map; str.split() with no argument
splits on runs of Python whitespace.
-/

/-- A Python string, modelled as its list of characters. -/
abbrev Str := List Char

/-- Shorthand turning a Lean string literal into the Str model. -/
def str (s : String) : Str := s.data

/-- The characters Python str.split and str.strip treat as whitespace. -/
def pyWhitespace : List Char :=
  [' ', '\t', '\n', '\r', '\x0b', '\x0c', '\x1c', '\x1d', '\x1e', '\x1f',
   '\x85', '\u00A0', '\u1680', '\u2000', '\u2001', '\u2002', '\u2003',
   '\u2004', '\u2005', '\u2006', '\u2007', '\u2008', '\u2009', '\u200A',
   '\u2028', '\u2029', '\u202F', '\u205F', '\u3000']

/-- Python whitespace test used by split and strip. -/
def pyIsSpace (c : Char) : Bool := pyWhitespace.contains c

/-- Python str.strip(): drop leading and trailing whitespace. -/
def pyStrip (s : Str) : Str :=
  ((s.dropWhile pyIsSpace).reverse.dropWhile pyIsSpace).reverse

/-- Helper for pySplit: accumulate the current token (reversed) while
scanning; emit it when whitespace or the end of input is reached. -/
def splitAux : Str → Str → List Str
  | acc, [] => if acc = [] then [] else [acc.reverse]
  | acc, c :: cs =>
    if pyIsSpace c then
      if acc = [] then splitAux [] cs else acc.reverse :: splitAux [] cs
    else splitAux (c :: acc) cs

/-- Python str.split() with no separator: maximal runs of
non-whitespace characters, empties discarded. -/
def pySplit (s : Str) : List Str := splitAux [] s

/-- Python single-space join, as in the join of pipelines.clean_text. -/
def joinSp : List Str → Str
  | [] => []
  | [t] => t
  | t :: t' :: ts => t ++ ' ' :: joinSp (t' :: ts)

/-- The four character substitutions of pipelines.clean_text: the
non-breaking space becomes a plain space, the right single quotation
mark an apostrophe, the two curly double quotation marks a straight
double quote.  Each Python replace has a one-character pattern, so
their composition is this charwise map. -/
def fixChar (c : Char) : Char :=
  if c = '\u00A0' then ' '
  else if c = '\u2019' then Char.ofNat 39
  else if c = '\u201C' then Char.ofNat 34
  else if c = '\u201D' then Char.ofNat 34
  else c

/-- pipelines.DocumentationPipeline.clean_text: empty text maps to the
empty string; otherwise whitespace runs are collapsed by split and
join, the four unwanted characters are substituted, and the result is
stripped. -/
def clean_text (s : Str) : Str :=
  if s = [] then []
  else pyStrip ((joinSp (pySplit s)).map fixChar)

/-- A DocumentationItem as the validation pipeline sees it.  A missing
content or title key behaves exactly like an empty string inside
clean_documentation_item, so both are modelled as Str; the three
fields setdefault touches are optional. -/
structure DocItem where
  url : Str
  content : Str
  title : Str
  language : Option Str
  section_ : Option Str
  tags : Option (List Str)
deriving DecidableEq

/-- pipelines.DocumentationPipeline.clean_documentation_item: drop the
item when its raw content is missing, empty or shorter than 50
characters, or its raw title is missing or empty; otherwise clean
content and title and fill the defaulted fields. -/
def clean_documentation_item (it : DocItem) : Option DocItem :=
  if it.content = [] ∨ it.content.length < 50 then none
  else if it.title = [] then none
  else some { it with
    content := clean_text it.content,
    title := clean_text it.title,
    language := some (it.language.getD (str "en")),
    section_ := some (it.section_.getD (str "General Documentation")),
    tags := some (it.tags.getD []) }

/-- Fuel-driven scan for pyReplace: at each position, when the pattern
matches it is consumed and the replacement emitted, otherwise one
character is copied.  One unit of fuel per consumed character. -/
def pyReplaceAux (pat rep : Str) : Nat → Str → Str
  | _, [] => []
  | 0, s => s
  | Nat.succ fuel, c :: cs =>
    if pat.isPrefixOf (c :: cs) then
      rep ++ pyReplaceAux pat rep fuel ((c :: cs).drop pat.length)
    else c :: pyReplaceAux pat rep fuel cs

/-- Python str.replace: every non-overlapping occurrence of pat in s
is replaced by rep, scanning left to right.  An empty pattern matches
at every position, as in Python. -/
def pyReplace (s pat rep : Str) : Str :=
  if pat = [] then rep ++ (s.map (fun c => c :: rep)).flatten
  else pyReplaceAux pat rep s.length s

/-- Python str.title() restricted to ASCII letters: a letter is
uppercased when the previous character is not a letter and lowercased
otherwise; other characters pass through.  The boolean argument says
whether the previous character was a letter. -/
def pyTitleAux : Bool → Str → Str
  | _, [] => []
  | prevAlpha, c :: cs =>
    (if c.isAlpha then (if prevAlpha then c.toLower else c.toUpper) else c)
      :: pyTitleAux c.isAlpha cs

/-- Python str.title() on a string (ASCII model). -/
def pyTitle (s : Str) : Str := pyTitleAux false s

/-- Python path.split with separator slash: pieces between slashes,
empty pieces kept, so the result is never the empty list. -/
def splitSlash : Str → List Str
  | [] => [[]]
  | c :: cs =>
    if c = '/' then [] :: splitSlash cs
    else
      match splitSlash cs with
      | [] => [[c]]
      | t :: ts => (c :: t) :: ts

/-- A response as docs_spider.extract_title consults it: the first
css match of each of the five title selectors, in the order of the
source list (h1 text, document title text, page-title class,
article-title class, page-title test id), and the URL path for the
fallback.  A selector with no match is none; a matched empty text is
some []. -/
structure TitleResponse where
  h1 : Option Str
  titleTag : Option Str
  pageTitle : Option Str
  articleTitle : Option Str
  testidTitle : Option Str
  path : Str

/-- docs_spider.extract_title's loop body over the selector results:
the first truthy (present and non-empty) match is stripped and
returned, and the fallback is used when the list is exhausted. -/
def firstTruthyStrip : List (Option Str) → Str → Str
  | [], fallback => fallback
  | o :: rest, fallback =>
    match o with
    | some t => if t = [] then firstTruthyStrip rest fallback else pyStrip t
    | none => firstTruthyStrip rest fallback

/-- docs_spider.extract_title: try the five selectors in order and
fall back to the URL's last path segment with hyphens replaced by
spaces and the result title-cased. -/
def extract_title (r : TitleResponse) : Str :=
  firstTruthyStrip [r.h1, r.titleTag, r.pageTitle, r.articleTitle, r.testidTitle]
    (pyTitle (((splitSlash r.path).getLastD []).map
      (fun c => if c = '-' then ' ' else c)))

/-- Specification-side reading of the title contract: the first
non-empty match from the ordered selector list. -/
def firstNonEmptyMatch (cands : List (Option Str)) : Option Str :=
  (cands.filterMap id).find? (fun t => !t.isEmpty)

/-- A code element of a fetched page, as the two css queries of
docs_spider.extract_code_blocks see it: inPre says whether the code
element is nested inside a pre element (the css selector pre code
matches exactly those, while the bare selector code matches every
code element, nested or not); cls is its class attribute when
present; text is the concatenation of its text nodes. -/
structure CodeElem where
  inPre : Bool
  cls : Option Str
  text : Str
deriving DecidableEq

/-- One entry of the code_blocks field. -/
structure CodeBlock where
  language : Str
  code : Str
  type : Str
deriving DecidableEq

/-- Language inference of docs_spider.extract_code_blocks: a truthy
class attribute with every occurrence of language- and then of lang-
removed, and text otherwise. -/
def inferLanguage (cls : Option Str) : Str :=
  match cls with
  | some l =>
    if l = [] then str "text"
    else pyReplace (pyReplace l (str "language-") []) (str "lang-") []
  | none => str "text"

/-- docs_spider.extract_code_blocks: first every pre code element with
non-empty stripped text, typed pre_code with its inferred language;
then every code element whose stripped text is non-empty and longer
than 10 characters, typed inline with language text. -/
def extract_code_blocks (page : List CodeElem) : List CodeBlock :=
  (page.filter (fun e => e.inPre)).filterMap (fun e =>
    let c := pyStrip e.text
    if c = [] then none
    else some { language := inferLanguage e.cls, code := c, type := str "pre_code" })
  ++ page.filterMap (fun e =>
    let c := pyStrip e.text
    if c ≠ [] ∧ 10 < c.length then
      some { language := str "text", code := c, type := str "inline" }
    else none)

/-- A DocumentationItem as docs_spider.is_content_complete consults
it: the spider has already filled content, title, page_type and tags. -/
structure PageItem where
  content : Str
  title : Str
  page_type : Str
  tags : List Str
deriving DecidableEq

/-- docs_spider.is_content_complete: empty or short content or an
empty title is incomplete; a mini_dapp page must carry one of the
sdk, integration or development tags, a dapp_portal page one of
wallet, payment or portal; every other page type is then complete. -/
def is_content_complete (it : PageItem) : Bool :=
  if it.content = [] ∨ it.content.length < 100 then false
  else if it.title = [] then false
  else if it.page_type = str "mini_dapp" then
    [str "sdk", str "integration", str "development"].any
      (fun t => it.tags.contains t)
  else if it.page_type = str "dapp_portal" then
    [str "wallet", str "payment", str "portal"].any
      (fun t => it.tags.contains t)
  else true

/-- Modelled from the spec: frontier URL normalization.  The scrapy
link-extractor and request-dupefilter layer is not part of the
repository source; the spec says normalization strips fragment
identifiers and trailing slashes so that distinct anchor links to the
same resource collapse to one entry. -/
def normalizeUrl (u : Str) : Str :=
  (((u.takeWhile (fun c => c ≠ '#')).reverse.dropWhile (fun c => c = '/'))).reverse

/-- Modelled from the spec: the frontier admits a discovered link only
when its normalized URL has not previously been admitted (the
at-most-once guarantee of the external link-extractor dedup, with
unique true, and the scheduler dupefilter).  visited is the set of
already-admitted normalized URLs. -/
def admitAll : List Str → List Str → List Str
  | _, [] => []
  | visited, u :: us =>
    let n := normalizeUrl u
    if n ∈ visited then admitAll visited us
    else n :: admitAll (n :: visited) us

/-- The frontier entries produced by a list of discovered links, in
discovery order. -/
def frontierOf (links : List Str) : List Str := admitAll [] links

/-- docs_spider.parse_documentation's guard structure: a URL already
in processed_urls yields nothing; otherwise the URL is recorded as
processed and the page yields its record unless the depth exceeds
max_depth or the body exceeds the 7 MB page-size ceiling.  The
returned Str option stands for the record set emitted for the page,
identified by its URL. -/
def parse_documentation (max_depth : Nat) (processed : List Str) (url : Str)
    (depth : Nat) (bodyLen : Nat) : List Str × Option Str :=
  if url ∈ processed then (processed, none)
  else
    let processed' := url :: processed
    if max_depth < depth then (processed', none)
    else if 7 * 1024 * 1024 < bodyLen then (processed', none)
    else (processed', some url)

/-- Run the spider callback over a list of fetched pages (url, depth,
body size), threading processed_urls and collecting the URLs of the
pages that produced records. -/
def runCrawl (max_depth : Nat) : List Str → List (Str × Nat × Nat) → List Str
  | _, [] => []
  | processed, (u, d, b) :: ps =>
    match parse_documentation max_depth processed u d b with
    | (p', some r) => r :: runCrawl max_depth p' ps
    | (p', none) => runCrawl max_depth p' ps

/-- A request as CustomRetryMiddleware sees it: the dont_retry flag of
the request meta and the retry_times counter carried across attempts. -/
structure Req where
  dont_retry : Bool
  retry_times : Nat
deriving DecidableEq

/-- What process_response returns: the response unchanged, or a retry
request replacing it. -/
inductive ResponseAction where
  | keepResponse : ResponseAction
  | retryRequest : Req → ResponseAction
deriving DecidableEq

/-- The designated retryable status codes of
CustomRetryMiddleware.__init__ (the RETRY_HTTP_CODES fallback list in
middlewares.py; settings.py sets no such key). -/
def retry_http_codes : List Nat := [500, 502, 503, 504, 408, 429]

/-- Modelled from the spec: the retry helper of the scrapy
RetryMiddleware base class, which is not repository source.  The spec
says a retryable failure is retried up to a configured maximum
attempt count; the helper returns the request with its attempt
counter advanced while the counter is within the bound, and nothing
once the cap is exceeded. -/
def retryHelper (max_retry_times : Nat) (req : Req) : Option Req :=
  if req.retry_times + 1 ≤ max_retry_times then
    some { req with retry_times := req.retry_times + 1 }
  else none

/-- CustomRetryMiddleware.process_response: a request flagged
dont_retry returns the response as-is; a response whose status is in
the retryable set yields a retry while attempts remain and otherwise
the response; every other status passes through. -/
def process_response (max_retry_times : Nat) (req : Req) (status : Nat) :
    ResponseAction :=
  if req.dont_retry then ResponseAction.keepResponse
  else if status ∈ retry_http_codes then
    match retryHelper max_retry_times req with
    | some r => ResponseAction.retryRequest r
    | none => ResponseAction.keepResponse
  else ResponseAction.keepResponse

/-- CustomRetryMiddleware.process_exception: a transient network
exception (one of EXCEPTIONS_TO_RETRY, modelled as a flag) on a
request not flagged dont_retry is retried through the same bounded
helper; otherwise the middleware does nothing. -/
def process_exception (max_retry_times : Nat) (req : Req) (transient : Bool) :
    Option Req :=
  if transient ∧ ¬ req.dont_retry then retryHelper max_retry_times req
  else none

/-- A documentation item as data_processor reads it back from JSON: a
dictionary whose keys may be absent, read with per-key defaults. -/
structure PItem where
  content : Option Str
  section_ : Option Str
  language : Option Str
  page_type : Option Str
  tags : Option (List Str)
deriving DecidableEq

/-- A code example as data_processor reads it back from JSON; only its
language key is consulted. -/
structure CItem where
  language : Option Str
deriving DecidableEq

/-- A link record as data_processor reads it back from JSON; only the
count of links is consulted. -/
structure LItem where
  url : Str
deriving DecidableEq

/-- The statistics dictionary of
DocumentationProcessor.calculate_statistics. -/
structure Stats where
  total_documentation_items : Nat
  total_code_examples : Nat
  total_links : Nat
  sections_count : Nat
  languages_count : Nat
  page_types_count : Nat
  topics_count : Nat
  processing_date : Str
  total_content_length : Nat
  average_content_length : ℚ
  code_languages : List Str
  code_languages_count : Nat
deriving DecidableEq

/-- The processed_data dictionary of
DocumentationProcessor.process_documentation. -/
structure ProcessedData where
  sections : List (Str × List PItem)
  languages : List (Str × List PItem)
  page_types : List (Str × List PItem)
  topics : List (Str × List PItem)
  code_by_language : List (Str × List CItem)
  statistics : Stats
deriving DecidableEq

/-- Append a value under a key of a defaultdict-of-lists: an existing
key keeps its position and grows its list, a new key is appended at
the end, matching Python dict insertion order. -/
def addGroup {α : Type} : List (Str × List α) → Str → α → List (Str × List α)
  | [], k, x => [(k, [x])]
  | (k', xs) :: rest, k, x =>
    if k' = k then (k', xs ++ [x]) :: rest
    else (k', xs) :: addGroup rest k x

/-- The sections grouping: each item under its section key, defaulted
to General Documentation. -/
def groupSections (docs : List PItem) : List (Str × List PItem) :=
  docs.foldl (fun g it => addGroup g (it.section_.getD (str "General Documentation")) it) []

/-- The languages grouping, keys defaulted to en. -/
def groupLanguages (docs : List PItem) : List (Str × List PItem) :=
  docs.foldl (fun g it => addGroup g (it.language.getD (str "en")) it) []

/-- The page_types grouping, keys defaulted to general. -/
def groupPageTypes (docs : List PItem) : List (Str × List PItem) :=
  docs.foldl (fun g it => addGroup g (it.page_type.getD (str "general")) it) []

/-- The topics grouping: each item under every one of its tags. -/
def groupTopics (docs : List PItem) : List (Str × List PItem) :=
  docs.foldl (fun g it => (it.tags.getD []).foldl (fun g' tg => addGroup g' tg it) g) []

/-- The code_by_language grouping of code examples, keys defaulted to
text. -/
def groupCodeByLanguage (codes : List CItem) : List (Str × List CItem) :=
  codes.foldl (fun g it => addGroup g (it.language.getD (str "text")) it) []

/-- The distinct code languages (Python builds a set of them; the
model keeps first occurrences, and the count is the set's size). -/
def codeLanguagesOf (codes : List CItem) : List Str :=
  (codes.map (fun c => c.language.getD (str "text"))).eraseDup

/-- DocumentationProcessor.calculate_statistics as a function of the
loaded collections, the groupings and the clock reading now that
datetime.now supplies: counts, the content-length sum, the average
content length (zero for an empty item list, otherwise the exact
quotient) and the distinct code languages. -/
def calculate_statistics (docs : List PItem) (codes : List CItem)
    (links : List LItem) (secs langs ptypes tops : List (Str × List PItem))
    (now : Str) : Stats :=
  { total_documentation_items := docs.length
    total_code_examples := codes.length
    total_links := links.length
    sections_count := secs.length
    languages_count := langs.length
    page_types_count := ptypes.length
    topics_count := tops.length
    processing_date := now
    total_content_length := (docs.map (fun it => (it.content.getD []).length)).sum
    average_content_length :=
      if docs = [] then 0
      else ((((docs.map (fun it => (it.content.getD []).length)).sum : ℕ)) : ℚ)
             / (docs.length : ℚ)
    code_languages := codeLanguagesOf codes
    code_languages_count := (codeLanguagesOf codes).length }

/-- DocumentationProcessor.process_documentation: build the five
groupings from the loaded collections and compute the statistics; now
is the clock reading datetime.now supplies for processing_date. -/
def process_documentation (docs : List PItem) (codes : List CItem)
    (links : List LItem) (now : Str) : ProcessedData :=
  { sections := groupSections docs
    languages := groupLanguages docs
    page_types := groupPageTypes docs
    topics := groupTopics docs
    code_by_language := groupCodeByLanguage codes
    statistics := calculate_statistics docs codes links (groupSections docs)
      (groupLanguages docs) (groupPageTypes docs) (groupTopics docs) now }

/-- A processed corpus with its timestamp blanked, to compare two runs
up to the clock reading. -/
def stripDate (p : ProcessedData) : ProcessedData :=
  { p with statistics := { p.statistics with processing_date := [] } }

/-- Claim C6 counterexample: a page of the unlisted type general with
non-empty content (one character) and a non-empty title is judged
incomplete by the code, because the length bound is 100 characters
and not mere non-emptiness. -/
theorem C6_counterexample :
    is_content_complete
        { content := str "x", title := str "T", page_type := str "general", tags := [] }
      = false
    ∧ str "x" ≠ [] ∧ str "T" ≠ []
    ∧ str "general" ≠ str "mini_dapp" ∧ str "general" ≠ str "dapp_portal" := by
  decide

/-- Claim C6 as amended: is_content_complete holds exactly when the
content has at least 100 characters, the title is non-empty, a
mini_dapp page carries one of the sdk, integration or development
tags, and a dapp_portal page carries one of the wallet, payment or
portal tags; pages of unlisted types need only the content and title
bounds. -/
theorem C6_is_complete_policy :
    ∀ it : PageItem,
      is_content_complete it = true ↔
        (100 ≤ it.content.length ∧ it.title ≠ [] ∧
         (it.page_type = str "mini_dapp" →
           (str "sdk" ∈ it.tags ∨ str "integration" ∈ it.tags ∨ str "development" ∈ it.tags)) ∧
         (it.page_type = str "dapp_portal" →
           (str "wallet" ∈ it.tags ∨ str "payment" ∈ it.tags ∨ str "portal" ∈ it.tags))) := by
  intro it
  unfold is_content_complete
  split_ifs with h1 h2 h3 h4
  · simp only [Bool.false_eq_true, false_iff]
    rintro ⟨hlen, -⟩
    rcases h1 with h | h
    · simp [h] at hlen
    · omega
  · simp only [Bool.false_eq_true, false_iff]
    rintro ⟨-, ht, -⟩
    exact ht h2
  · push_neg at h1
    constructor
    · intro ha
      refine ⟨by omega, h2, fun _ => ?_, fun hpd => ?_⟩
      · simpa [List.any_eq_true, List.elem_iff, or_assoc] using ha
      · rw [h3] at hpd
        exact absurd hpd (by decide)
    · rintro ⟨-, -, hmini, -⟩
      have := hmini h3
      simp [List.any_eq_true, List.elem_iff, or_assoc]
      tauto
  · push_neg at h1
    constructor
    · intro ha
      refine ⟨by omega, h2, fun hpd => ?_, fun _ => ?_⟩
      · rw [h4] at hpd
        exact absurd hpd (by decide)
      · simpa [List.any_eq_true, List.elem_iff, or_assoc] using ha
    · rintro ⟨-, -, -, hportal⟩
      have := hportal h4
      simp [List.any_eq_true, List.elem_iff, or_assoc]
      tauto
  · push_neg at h1
    simp only [true_iff, iff_true]
    refine ⟨by omega, h2, fun hpd => absurd hpd h3, fun hpd => absurd hpd h4⟩

/-- Claim C8: the dont_retry flag suppresses retry entirely, for both
retryable statuses and transient network exceptions; a status in the
designated retryable set yields a retry with the attempt counter
advanced while attempts remain, and the response once the cap is
reached; and the six designated codes are in the retryable set. -/
theorem C8_retry_policy :
    ∀ (maxR : Nat) (req : Req) (status : Nat) (transient : Bool),
      process_response maxR { req with dont_retry := true } status
          = ResponseAction.keepResponse
      ∧ process_exception maxR { req with dont_retry := true } transient = none
      ∧ (req.dont_retry = false → status ∈ retry_http_codes →
          req.retry_times + 1 ≤ maxR →
          process_response maxR req status
            = ResponseAction.retryRequest { req with retry_times := req.retry_times + 1 })
      ∧ (req.dont_retry = false → status ∈ retry_http_codes →
          maxR < req.retry_times + 1 →
          process_response maxR req status = ResponseAction.keepResponse)
      ∧ (500 : Nat) ∈ retry_http_codes ∧ (502 : Nat) ∈ retry_http_codes
      ∧ (503 : Nat) ∈ retry_http_codes ∧ (504 : Nat) ∈ retry_http_codes
      ∧ (408 : Nat) ∈ retry_http_codes ∧ (429 : Nat) ∈ retry_http_codes := by
  intro maxR req status transient
  refine ⟨?_, ?_, ?_, ?_, by decide, by decide, by decide, by decide, by decide, by decide⟩
  · simp [process_response]
  · simp [process_exception]
  · intro hd hs hb
    simp [process_response, hd, hs, retryHelper, hb]
  · intro hd hs hb
    simp only [process_response, hd, Bool.false_eq_true, if_false, if_pos hs, retryHelper]
    rw [if_neg (by omega)]

/-- Claim C4 counterexample: two aggregation runs over the same empty
collections but different clock readings produce different processed
corpora, because the statistics embed the processing_date timestamp,
so recomputation does not reproduce the corpus exactly. -/
theorem C4_counterexample :
    process_documentation [] [] [] (str "2025-01-01")
      ≠ process_documentation [] [] [] (str "2025-01-02") := by
  intro h
  have hd := congrArg (fun p => p.statistics.processing_date) h
  simp only [process_documentation, calculate_statistics] at hd
  exact absurd hd (by decide)

/-- Claim C4 as amended: up to the processing_date timestamp the
aggregation is a pure function of the loaded collections, so
recomputing groupings and statistics from the same persisted
collections reproduces every field of the aggregated corpus except
that timestamp. -/
theorem C4_aggregation_pure_up_to_timestamp :
    ∀ (docs : List PItem) (codes : List CItem) (links : List LItem) (t1 t2 : Str),
      stripDate (process_documentation docs codes links t1)
        = stripDate (process_documentation docs codes links t2) := by
  intro docs codes links t1 t2
  rfl

/-- Claim C3: the computed statistics count the item list exactly, sum
its content lengths exactly, and define the average content length as
the exact quotient with the zero convention for an empty list; in
consequence the average times the count always equals the total. -/
theorem C3_statistics_correct :
    ∀ (docs : List PItem) (codes : List CItem) (links : List LItem) (now : Str),
      (process_documentation docs codes links now).statistics.total_documentation_items
          = docs.length
      ∧ (process_documentation docs codes links now).statistics.total_content_length
          = (docs.map (fun it => (it.content.getD []).length)).sum
      ∧ (process_documentation docs codes links now).statistics.average_content_length
          = (if docs.length = 0 then 0
             else ((process_documentation docs codes links now).statistics.total_content_length : ℚ)
                    / (docs.length : ℚ))
      ∧ (process_documentation docs codes links now).statistics.average_content_length
            * (docs.length : ℚ)
          = ((process_documentation docs codes links now).statistics.total_content_length : ℚ) := by
  intro docs codes links now
  refine ⟨rfl, rfl, ?_, ?_⟩
  · simp only [process_documentation, calculate_statistics]
    by_cases h : docs = []
    · simp [h]
    · rw [if_neg h, if_neg (fun hl => h (List.length_eq_zero.mp hl))]
  · simp only [process_documentation, calculate_statistics]
    by_cases h : docs = []
    · simp [h]
    · rw [if_neg h]
      have hne : (docs.length : ℚ) ≠ 0 :=
        Nat.cast_ne_zero.mpr (fun hl => h (List.length_eq_zero.mp hl))
      exact div_mul_cancel₀ _ hne

/-- Claim C2 counterexample: an item whose raw content is the letter a
followed by 49 spaces (50 characters, so it passes the raw length
check) is admitted, yet its cleaned content is the single character a,
far below 50 characters: the thresholds are applied before cleaning,
not after. -/
theorem C2_counterexample :
    clean_documentation_item
        { url := [], content := str "a" ++ List.replicate 49 ' ', title := str "T",
          language := none, section_ := none, tags := none }
      = some { url := [], content := str "a", title := str "T",
               language := some (str "en"),
               section_ := some (str "General Documentation"), tags := some [] }
    ∧ (str "a").length < 50 := by
  constructor
  · decide
  · decide

/-- Claim C2 as amended: the pipeline admits an item exactly when its
raw content has at least 50 characters and its raw title is
non-empty, and the admitted record carries the cleaned content and
title (which cleaning may shorten below those bounds). -/
theorem C2_validation_raw_thresholds :
    ∀ it : DocItem,
      ((clean_documentation_item it).isSome ↔
        (50 ≤ it.content.length ∧ it.title ≠ []))
      ∧ (∀ out, clean_documentation_item it = some out →
          out.content = clean_text it.content ∧ out.title = clean_text it.title) := by
  intro it
  constructor
  · unfold clean_documentation_item
    split_ifs with h1 h2
    · simp only [Option.isSome_none, Bool.false_eq_true, false_iff]
      rintro ⟨hlen, -⟩
      rcases h1 with h | h
      · simp [h] at hlen
      · omega
    · simp only [Option.isSome_none, Bool.false_eq_true, false_iff]
      rintro ⟨-, ht⟩
      exact ht h2
    · push_neg at h1
      simp only [Option.isSome_some, true_iff]
      exact ⟨by omega, h2⟩
  · intro out h
    unfold clean_documentation_item at h
    split_ifs at h
    cases h
    exact ⟨rfl, rfl⟩

/-- Claim C5: the code-block extractor strips the class-name prefix,
so class language-typescript yields language typescript; a fenced
block with no class gets language text; a non-empty fenced block is
kept whatever its length; a 60-character bare inline code element
with no class is kept with language text; a 5-character inline code
element is dropped. -/
theorem C5_code_block_scenarios :
    inferLanguage (some (str "language-typescript")) = str "typescript"
    ∧ inferLanguage none = str "text"
    ∧ (∀ (page : List CodeElem) (e : CodeElem), e ∈ page → e.inPre = true →
        pyStrip e.text ≠ [] →
        ({ language := inferLanguage e.cls, code := pyStrip e.text,
           type := str "pre_code" } : CodeBlock) ∈ extract_code_blocks page)
    ∧ extract_code_blocks [{ inPre := false, cls := none, text := List.replicate 60 'a' }]
        = [{ language := str "text", code := List.replicate 60 'a', type := str "inline" }]
    ∧ extract_code_blocks [{ inPre := false, cls := none, text := str "abcde" }] = [] := by
  refine ⟨by decide, by decide, ?_, by decide, by decide⟩
  intro page e hmem hpre hne
  unfold extract_code_blocks
  apply List.mem_append_left
  apply List.mem_filterMap.mpr
  refine ⟨e, List.mem_filter.mpr ⟨hmem, hpre⟩, ?_⟩
  simp [hne]

/-- Claim C9: a pre code block whose stripped text is non-empty and
longer than 10 characters appears twice in the extractor's output,
once typed pre_code with its inferred language and once typed inline
with language text, because the bare code selector also matches code
elements nested inside pre; on a page holding just that element the
output is exactly those two entries, in that order. -/
theorem C9_pre_code_blocks_counted_twice :
    (∀ (page : List CodeElem) (e : CodeElem), e ∈ page → e.inPre = true →
        pyStrip e.text ≠ [] → 10 < (pyStrip e.text).length →
        ({ language := inferLanguage e.cls, code := pyStrip e.text,
           type := str "pre_code" } : CodeBlock) ∈ extract_code_blocks page
        ∧ ({ language := str "text", code := pyStrip e.text,
             type := str "inline" } : CodeBlock) ∈ extract_code_blocks page)
    ∧ (∀ e : CodeElem, e.inPre = true → pyStrip e.text ≠ [] →
        10 < (pyStrip e.text).length →
        extract_code_blocks [e]
          = [{ language := inferLanguage e.cls, code := pyStrip e.text,
               type := str "pre_code" },
             { language := str "text", code := pyStrip e.text,
               type := str "inline" }]) := by
  constructor
  · intro page e hmem hpre hne hlen
    constructor
    · unfold extract_code_blocks
      apply List.mem_append_left
      apply List.mem_filterMap.mpr
      refine ⟨e, List.mem_filter.mpr ⟨hmem, hpre⟩, ?_⟩
      simp [hne]
    · unfold extract_code_blocks
      apply List.mem_append_right
      apply List.mem_filterMap.mpr
      refine ⟨e, hmem, ?_⟩
      simp [hne, hlen]
  · intro e hpre hne hlen
    unfold extract_code_blocks
    simp [hpre, hne, hlen, List.filter]

/-- The selector loop returns the stripped first non-empty match and
otherwise the fallback. -/
theorem firstTruthyStrip_eq (cands : List (Option Str)) (fb : Str) :
    firstTruthyStrip cands fb =
      match firstNonEmptyMatch cands with
      | some t => pyStrip t
      | none => fb := by
  induction cands with
  | nil => rfl
  | cons o rest ih =>
    cases o with
    | none =>
      simpa [firstTruthyStrip, firstNonEmptyMatch] using ih
    | some t =>
      by_cases ht : t = []
      · subst ht
        simpa [firstTruthyStrip, firstNonEmptyMatch] using ih
      · simp [firstTruthyStrip, firstNonEmptyMatch, ht, List.find?_cons,
          List.isEmpty_iff, ht]

/-- Claim C7: the extracted title is the stripped first non-empty
match of the ordered selector list (h1 text, document title,
page-title, article-title, page-title test id), and when every
selector fails it is derived from the URL's last path segment with
hyphens replaced by spaces and the result title-cased. -/
theorem C7_title_extraction :
    ∀ r : TitleResponse,
      extract_title r =
        match firstNonEmptyMatch
            [r.h1, r.titleTag, r.pageTitle, r.articleTitle, r.testidTitle] with
        | some t => pyStrip t
        | none =>
          pyTitle (((splitSlash r.path).getLastD []).map
            (fun c => if c = '-' then ' ' else c)) := by
  intro r
  exact firstTruthyStrip_eq _ _

/-- Frontier admission never admits the same normalized URL twice:
the admitted list has no duplicates, and nothing already visited is
ever admitted again. -/
theorem admitAll_nodup (links : List Str) :
    ∀ visited : List Str,
      (admitAll visited links).Nodup
      ∧ ∀ u ∈ visited, u ∉ admitAll visited links := by
  induction links with
  | nil => exact fun visited => ⟨List.nodup_nil, by simp [admitAll]⟩
  | cons l ls ih =>
    intro visited
    by_cases h : normalizeUrl l ∈ visited
    · simpa [admitAll, h] using ih visited
    · have h1 := ih (normalizeUrl l :: visited)
      refine ⟨?_, ?_⟩
      · simp only [admitAll, if_neg h, List.nodup_cons]
        exact ⟨h1.2 _ (List.mem_cons_self _ _), h1.1⟩
      · intro u hu
        simp only [admitAll, if_neg h, List.mem_cons, not_or]
        exact ⟨fun he => h (he ▸ hu), h1.2 u (List.mem_cons_of_mem _ hu)⟩

/-- The spider callback emits at most one record set per URL: every
emitted record URL is new, so the collected record list has no
duplicates and never revisits an already-processed URL. -/
theorem runCrawl_nodup (max_depth : Nat) (pages : List (Str × Nat × Nat)) :
    ∀ processed : List Str,
      (runCrawl max_depth processed pages).Nodup
      ∧ ∀ u ∈ processed, u ∉ runCrawl max_depth processed pages := by
  induction pages with
  | nil => exact fun processed => ⟨List.nodup_nil, by simp [runCrawl]⟩
  | cons p ps ih =>
    intro processed
    obtain ⟨u, d, b⟩ := p
    by_cases hmem : u ∈ processed
    · have : parse_documentation max_depth processed u d b = (processed, none) := by
        simp [parse_documentation, hmem]
      simpa [runCrawl, this] using ih processed
    · have h1 := ih (u :: processed)
      by_cases hd : max_depth < d
      · have : parse_documentation max_depth processed u d b = (u :: processed, none) := by
          simp [parse_documentation, hmem, hd]
        refine ⟨?_, ?_⟩
        · simpa [runCrawl, this] using h1.1
        · intro v hv
          simpa [runCrawl, this] using h1.2 v (List.mem_cons_of_mem _ hv)
      · by_cases hb : 7 * 1024 * 1024 < b
        · have : parse_documentation max_depth processed u d b = (u :: processed, none) := by
            simp [parse_documentation, hmem, hd, hb]
          refine ⟨?_, ?_⟩
          · simpa [runCrawl, this] using h1.1
          · intro v hv
            simpa [runCrawl, this] using h1.2 v (List.mem_cons_of_mem _ hv)
        · have : parse_documentation max_depth processed u d b = (u :: processed, some u) := by
            simp [parse_documentation, hmem, hd, hb]
          refine ⟨?_, ?_⟩
          · simp only [runCrawl, this, List.nodup_cons]
            exact ⟨h1.2 u (List.mem_cons_self _ _), h1.1⟩
          · intro v hv
            simp only [runCrawl, this, List.mem_cons, not_or]
            exact ⟨fun he => hmem (he ▸ hv), h1.2 v (List.mem_cons_of_mem _ hv)⟩

/-- Claim C1: a discovered URL enters the frontier at most once and is
processed at most once.  The frontier built from any list of
discovered links has no duplicate entries; the record list of any
crawl has no duplicate URLs; a URL already in the processed set
yields no further record; the two fragment variants of /guide yield
exactly one frontier entry for /guide; and fetching /guide twice
yields exactly one record. -/
theorem C1_at_most_once :
    ∀ (links : List Str) (m : Nat) (pages : List (Str × Nat × Nat)),
      (frontierOf links).Nodup
      ∧ (runCrawl m [] pages).Nodup
      ∧ (∀ (processed : List Str) (u : Str) (d b : Nat),
          u ∈ processed → (parse_documentation m processed u d b).2 = none)
      ∧ frontierOf [str "/guide#intro", str "/guide#setup"] = [str "/guide"]
      ∧ runCrawl m [] [(str "/guide", 0, 100), (str "/guide", 0, 100)]
          = [str "/guide"] := by
  intro links m pages
  refine ⟨(admitAll_nodup links []).1, (runCrawl_nodup m pages []).1, ?_, by decide, ?_⟩
  · intro processed u d b hu
    simp [parse_documentation, hu]
  · simp [runCrawl, parse_documentation, Nat.not_lt_zero]

/-- The character substitution map is idempotent: each of its four
images is a fixed point. -/
theorem fixChar_fix (c : Char) : fixChar (fixChar c) = fixChar c := by
  by_cases h1 : c = ' '
  · simp [fixChar, h1]
  · by_cases h2 : c = '’'
    · simp [fixChar, h2]
    · by_cases h3 : c = '“'
      · simp [fixChar, h3]
      · by_cases h4 : c = '”'
        · simp [fixChar, h4]
        · simp [fixChar, h1, h2, h3, h4]

/-- The character substitution map sends non-whitespace characters to
non-whitespace characters: of its special inputs only the
non-breaking space is whitespace. -/
theorem fixChar_nonspace (c : Char) (h : pyIsSpace c = false) :
    pyIsSpace (fixChar c) = false := by
  by_cases h1 : c = ' '
  · rw [h1] at h
    exact absurd h (by decide)
  · by_cases h2 : c = '’'
    · simp [fixChar, h1, h2]
      decide
    · by_cases h3 : c = '“'
      · simp [fixChar, h1, h2, h3]
        decide
      · by_cases h4 : c = '”'
        · simp [fixChar, h1, h2, h3, h4]
          decide
        · simpa [fixChar, h1, h2, h3, h4] using h

/-- Every token split produces is non-empty and free of whitespace,
provided the accumulator already is. -/
theorem splitAux_good (s : Str) :
    ∀ acc : Str, (∀ c ∈ acc, pyIsSpace c = false) →
      ∀ t ∈ splitAux acc s, t ≠ [] ∧ ∀ c ∈ t, pyIsSpace c = false := by
  induction s with
  | nil =>
    intro acc hacc t ht
    by_cases h : acc = []
    · simp [splitAux, h] at ht
    · simp only [splitAux, if_neg h, List.mem_singleton] at ht
      subst ht
      refine ⟨by simpa using h, ?_⟩
      intro c hc
      exact hacc c (List.mem_reverse.mp hc)
  | cons c cs ih =>
    intro acc hacc t ht
    by_cases hsp : pyIsSpace c
    · by_cases h : acc = []
      · simp only [splitAux, if_pos hsp, if_pos h] at ht
        exact ih [] (by simp) t ht
      · simp only [splitAux, if_pos hsp, if_neg h, List.mem_cons] at ht
        rcases ht with rfl | ht
        · refine ⟨by simpa using h, ?_⟩
          intro x hx
          exact hacc x (List.mem_reverse.mp hx)
        · exact ih [] (by simp) t ht
    · simp only [splitAux, if_neg hsp] at ht
      refine ih (c :: acc) ?_ t ht
      intro x hx
      rcases List.mem_cons.mp hx with rfl | hx
      · simpa using hsp
      · exact hacc x hx

/-- Scanning a whitespace-free token accumulates it whole. -/
theorem splitAux_token (t : Str) (ht : ∀ c ∈ t, pyIsSpace c = false) :
    ∀ acc r : Str, splitAux acc (t ++ r) = splitAux (t.reverse ++ acc) r := by
  induction t with
  | nil => intro acc r; simp
  | cons c t' ih =>
    intro acc r
    have hc : pyIsSpace c = false := ht c (List.mem_cons_self _ _)
    have ht' : ∀ x ∈ t', pyIsSpace x = false :=
      fun x hx => ht x (List.mem_cons_of_mem _ hx)
    simp only [List.cons_append, splitAux, hc, Bool.false_eq_true, if_false,
      List.reverse_cons, List.append_assoc, List.singleton_append]
    exact ih ht' (c :: acc) r

/-- The shape of a single-space join of a non-empty token list. -/
theorem joinSp_cons_eq (t : Str) (ts : List Str) :
    joinSp (t :: ts) = t ++ (match ts with | [] => [] | _ :: _ => ' ' :: joinSp ts) := by
  cases ts <;> simp [joinSp]

/-- Splitting a single-space join of non-empty whitespace-free tokens
recovers exactly those tokens. -/
theorem split_join (ts : List Str)
    (h : ∀ t ∈ ts, t ≠ [] ∧ ∀ c ∈ t, pyIsSpace c = false) :
    pySplit (joinSp ts) = ts := by
  induction ts with
  | nil => rfl
  | cons t ts ih =>
    have ht := h t (List.mem_cons_self _ _)
    have hrest : ∀ x ∈ ts, x ≠ [] ∧ ∀ c ∈ x, pyIsSpace c = false :=
      fun x hx => h x (List.mem_cons_of_mem _ hx)
    have hrev : t.reverse ≠ [] := by simpa using ht.1
    cases ts with
    | nil =>
      show splitAux [] (joinSp [t]) = [t]
      have : joinSp [t] = t ++ [] := by simp [joinSp]
      rw [this, splitAux_token t ht.2 [] []]
      simp [splitAux, hrev]
    | cons t' ts' =>
      show splitAux [] (joinSp (t :: t' :: ts')) = t :: t' :: ts'
      have hshape : joinSp (t :: t' :: ts') = t ++ (' ' :: joinSp (t' :: ts')) := rfl
      rw [hshape, splitAux_token t ht.2 [] (' ' :: joinSp (t' :: ts'))]
      simp only [List.append_nil, splitAux, if_pos (by decide : pyIsSpace ' ' = true),
        if_neg hrev, List.reverse_reverse]
      exact congrArg (t :: ·) (ih hrest)

/-- The reverse of a single-space join of non-empty whitespace-free
tokens starts with a non-whitespace character. -/
theorem joinSp_reverse_head (ts : List Str)
    (h : ∀ t ∈ ts, t ≠ [] ∧ ∀ c ∈ t, pyIsSpace c = false) (hne : ts ≠ []) :
    ∃ c r, (joinSp ts).reverse = c :: r ∧ pyIsSpace c = false := by
  induction ts with
  | nil => exact absurd rfl hne
  | cons t ts ih =>
    have ht := h t (List.mem_cons_self _ _)
    cases ts with
    | nil =>
      cases htr : t.reverse with
      | nil => exact absurd (by simpa using htr) ht.1
      | cons c r =>
        refine ⟨c, r, by simpa [joinSp] using htr, ?_⟩
        have : c ∈ t := List.mem_reverse.mp (htr ▸ List.mem_cons_self _ _)
        exact ht.2 c this
    | cons t' ts' =>
      obtain ⟨c, r, hcr, hc⟩ :=
        ih (fun x hx => h x (List.mem_cons_of_mem _ hx)) (by simp)
      refine ⟨c, r ++ ' ' :: t.reverse, ?_, hc⟩
      have hshape : joinSp (t :: t' :: ts') = t ++ (' ' :: joinSp (t' :: ts')) := rfl
      rw [hshape, List.reverse_append, List.reverse_cons, hcr]
      simp

/-- Stripping a single-space join of non-empty whitespace-free tokens
changes nothing: it neither starts nor ends with whitespace. -/
theorem pyStrip_joinSp (ts : List Str)
    (h : ∀ t ∈ ts, t ≠ [] ∧ ∀ c ∈ t, pyIsSpace c = false) :
    pyStrip (joinSp ts) = joinSp ts := by
  cases ts with
  | nil => rfl
  | cons t ts =>
    have ht := h t (List.mem_cons_self _ _)
    have hfront : (joinSp (t :: ts)).dropWhile pyIsSpace = joinSp (t :: ts) := by
      cases htc : t with
      | nil => exact absurd htc ht.1
      | cons c t'' =>
        have hc : pyIsSpace c = false := ht.2 c (htc ▸ List.mem_cons_self _ _)
        rw [joinSp_cons_eq]
        simp [List.dropWhile_cons, hc]
    obtain ⟨c, r, hcr, hc⟩ := joinSp_reverse_head (t :: ts) h (by simp)
    have hback : (joinSp (t :: ts)).reverse.dropWhile pyIsSpace
        = (joinSp (t :: ts)).reverse := by
      rw [hcr]
      simp [List.dropWhile_cons, hc]
    rw [pyStrip, hfront, hback, List.reverse_reverse]

/-- The character substitution map distributes over the single-space
join, because it fixes the space separator. -/
theorem joinSp_map_fix (ts : List Str) :
    (joinSp ts).map fixChar = joinSp (ts.map (List.map fixChar)) := by
  induction ts with
  | nil => rfl
  | cons t ts ih =>
    cases ts with
    | nil => simp [joinSp]
    | cons t' ts' =>
      have hshape : joinSp (t :: t' :: ts') = t ++ (' ' :: joinSp (t' :: ts')) := rfl
      rw [hshape]
      simp only [List.map_append, List.map_cons]
      rw [show fixChar ' ' = ' ' from by decide, ih]
      rfl

/-- Claim C10: clean_text is idempotent; a single application already
collapses whitespace runs, strips the ends and substitutes the four
special characters, so a second application changes nothing. -/
theorem C10_clean_text_idempotent :
    ∀ s : Str, clean_text (clean_text s) = clean_text s := by
  intro s
  by_cases hs : s = []
  · simp [hs, clean_text]
  · have hts := splitAux_good s [] (by simp)
    have hus : ∀ t ∈ (pySplit s).map (List.map fixChar),
        t ≠ [] ∧ ∀ c ∈ t, pyIsSpace c = false := by
      intro t htm
      obtain ⟨t0, ht0, rfl⟩ := List.mem_map.mp htm
      have h0 := hts t0 ht0
      refine ⟨by simpa using h0.1, ?_⟩
      intro c hc
      obtain ⟨c0, hc0, rfl⟩ := List.mem_map.mp hc
      exact fixChar_nonspace c0 (h0.2 c0 hc0)
    have h1 : clean_text s = joinSp ((pySplit s).map (List.map fixChar)) := by
      rw [clean_text, if_neg hs, joinSp_map_fix, pyStrip_joinSp _ hus]
    rw [h1]
    by_cases hu : (pySplit s).map (List.map fixChar) = []
    · rw [hu]
      rfl
    · have hjoin_ne : joinSp ((pySplit s).map (List.map fixChar)) ≠ [] := by
        cases hcase : (pySplit s).map (List.map fixChar) with
        | nil => exact absurd hcase hu
        | cons t ts =>
          have ht := hus t (hcase ▸ List.mem_cons_self _ _)
          rw [joinSp_cons_eq]
          simp [ht.1]
      have husfix : ((pySplit s).map (List.map fixChar)).map (List.map fixChar)
          = (pySplit s).map (List.map fixChar) := by
        rw [List.map_map]
        have hff : (List.map fixChar ∘ List.map fixChar : Str → Str) = List.map fixChar := by
          funext t
          show (t.map fixChar).map fixChar = t.map fixChar
          rw [List.map_map, show (fixChar ∘ fixChar) = fixChar from funext fixChar_fix]
        rw [hff]
      rw [clean_text, if_neg hjoin_ne, split_join _ hus, joinSp_map_fix, husfix,
        pyStrip_joinSp _ hus]
